import Mathlib

/-!
Shallow embedding of the indexing core of `index_concepts.py` from the
repository `feup-infolab/latex-index-tools`, together with theorems
settling the frozen claims about its specification.

Text is modelled as `List Char` (Python strings are character sequences),
maps with default values as association lists, Python string indexing
(including negative wrap-around and the IndexError failure mode) as an
`Option`-valued lookup, and the per-line annotation loop as an explicit
fold threading the cumulative inserted-marker length.
-/

namespace IndexConcepts

/-- A line of text, as a sequence of characters. -/
abbrev Line := List Char

/-- Number of distance lines (constant DISTANCE in the source). -/
def DISTANCE : Int := 200

/-- The fixed stopword set THESIS_STOPWORDS from the source. -/
def THESIS_STOPWORDS : List String :=
  ["entity", "information", "document", "model", "hypergraph-of-entity",
   "node", "entity-oriented search", "hypergraph", "ranking", "term"]

/-- Python string indexing `s[i]`: a nonnegative index is looked up
directly, a negative index wraps around from the end, and an index that is
still out of range is an IndexError, modelled as `none`. -/
def pyGet (l : Line) (i : Int) : Option Char :=
  if 0 ≤ i then l.get? i.toNat
  else if 0 ≤ (l.length : Int) + i then l.get? ((l.length : Int) + i).toNat
  else none

/-- Model of the regex class `[a-zA-Z]` (ASCII letters). -/
def isAsciiLetter (c : Char) : Bool :=
  ('a' ≤ c && c ≤ 'z') || ('A' ≤ c && c ≤ 'Z')

/-- Model of the regex word class `\w` on ASCII text: letters, digits and
the underscore.  The complement class `\W` is its negation. -/
def isWordChar (c : Char) : Bool :=
  isAsciiLetter c || ('0' ≤ c && c ≤ '9') || c == '_'

/-- Naive substring containment, modelling the Python `in` operator on
strings. -/
def containsSub (needle : Line) : Line → Bool
  | [] => needle.isEmpty
  | c :: rest => needle.isPrefixOf (c :: rest) || containsSub needle rest

/-- Lookup in an environment-counter association list, with the
`defaultdict` default value 0. -/
def envVal (m : List (Line × Int)) (k : Line) : Int :=
  match m with
  | [] => 0
  | (k0, v) :: rest => if k0 = k then v else envVal rest k

/-- Add `d` to the counter of key `k`, inserting the key with default 0
first when absent (the `defaultdict` update `count_env[k] += d`). -/
def bump (m : List (Line × Int)) (k : Line) (d : Int) : List (Line × Int) :=
  match m with
  | [] => [(k, d)]
  | (k0, v) :: rest => if k0 = k then (k0, v + d) :: rest else (k0, v) :: bump rest k d

/-- The literal token before the captured group in the begin-pattern. -/
def beginTok : Line := ['\\', 'b', 'e', 'g', 'i', 'n', '{']

/-- The literal token before the captured group in the end-pattern. -/
def endTok : Line := ['\\', 'e', 'n', 'd', '{']

/-- The lazy capture group followed by a closing brace: characters up to
the first closing brace, failing when a newline or the end of the string
comes first. -/
def lazyCapture (s : Line) : Option Line :=
  let pre := s.takeWhile (fun c => !(c == '}' || c == '\n'))
  if (s.drop pre.length).head? == some '}' then some pre else none

/-- Model of `re.match` with a greedy leading dot-star before the token:
among the token occurrences before the first newline, the LAST one that is
followed by a closing brace wins (greedy backtracking tries the rightmost
position first), and the capture runs up to the first closing brace after
it. -/
def lastCapture (tok : Line) : Line → Option Line
  | [] => none
  | c :: rest =>
    if c = '\n' then none
    else
      match lastCapture tok rest with
      | some g => some g
      | none =>
        if tok.isPrefixOf (c :: rest) then lazyCapture ((c :: rest).drop tok.length)
        else none

/-- Source function check_begin: if the line matches the begin-pattern and
the captured environment is not allowed, increment its counter. -/
def check_begin (line : Line) (count_env : List (Line × Int)) (allowed_env : List Line) :
    List (Line × Int) :=
  match lastCapture beginTok line with
  | some g => if allowed_env.contains g then count_env else bump count_env g 1
  | none => count_env

/-- Source function check_end: if the line matches the end-pattern and the
captured environment is not allowed, decrement its counter. -/
def check_end (line : Line) (count_env : List (Line × Int)) (allowed_env : List Line) :
    List (Line × Int) :=
  match lastCapture endTok line with
  | some g => if allowed_env.contains g then count_env else bump count_env g (-1)
  | none => count_env

/-- Source function is_inside_env: true iff some counter value is strictly
positive. -/
def is_inside_env (count_env : List (Line × Int)) : Bool :=
  count_env.any (fun p => decide (0 < p.2))

/-- Source function is_inside_command: balance of open minus close
characters strictly positive before the match and strictly negative after
it. -/
def is_inside_command (line : Line) (start_index end_index : Nat)
    (open_char close_char : Char) : Bool :=
  let before_match := line.take start_index
  let after_match := line.drop (end_index + 1)
  let before_count : Int := (before_match.count open_char : Int) - (before_match.count close_char : Int)
  let after_count : Int := (after_match.count open_char : Int) - (after_match.count close_char : Int)
  decide (before_count > 0) && decide (after_count < 0)

/-- Source function is_part_of_command: reversing the line and taking the
slice `rev_line[-end_index:]` (the whole reversed line when end_index is
zero, by the Python semantics of a zero negative slice bound), the match is
part of a command name iff that slice starts with zero or more ASCII
letters followed by a backslash. -/
def is_part_of_command (line : Line) (end_index : Nat) : Bool :=
  let rev_line := line.reverse
  let tail := if end_index = 0 then rev_line else rev_line.drop (rev_line.length - end_index)
  (tail.dropWhile isAsciiLetter).head? == some '\\'

/-- Source function is_invalid_concept: the concept contains a slash or the
substring et-al. -/
def is_invalid_concept (concept : String) : Bool :=
  containsSub ['/'] concept.data || containsSub "et al".data concept.data

/-- Source function can_annotate: starting from true, conjoin the distance
condition when the dist method is selected and the stopword condition when
the stop method is selected; `methods` is `none` when no method option was
given on the command line. -/
def can_annotate (methods : Option (List String)) (last_line_nr : Int)
    (current_line_nr : Int) (concept : String) : Bool :=
  match methods with
  | none => true
  | some ms =>
    (!ms.contains "dist" || (last_line_nr == -1 || decide (current_line_nr > last_line_nr + DISTANCE)))
      && (!ms.contains "stop" || !THESIS_STOPWORDS.contains concept)

/-- The statistics accumulator: the integer counters of the `stats`
defaultdict, plus the per-concept annotation-frequency distribution
(an association list with default value 0). -/
structure Stats where
  edited_files : Nat
  indexed_matches : Nat
  invalid_matches : Nat
  env_blocks_skipped : Nat
  ann_dist : List (String × Nat)
deriving DecidableEq, Repr

/-- The all-zero statistics accumulator. -/
def statsZero : Stats :=
  { edited_files := 0
    indexed_matches := 0
    invalid_matches := 0
    env_blocks_skipped := 0
    ann_dist := [] }

/-- Lookup in the per-concept last-annotated-line map, default -1. -/
def lastVal (m : List (String × Int)) (k : String) : Int :=
  match m with
  | [] => -1
  | (k0, v) :: rest => if k0 = k then v else lastVal rest k

/-- Update the per-concept last-annotated-line map. -/
def setLast (m : List (String × Int)) (k : String) (v : Int) : List (String × Int) :=
  match m with
  | [] => [(k, v)]
  | (k0, v0) :: rest => if k0 = k then (k0, v) :: rest else (k0, v0) :: setLast rest k v

/-- Increment the frequency-distribution counter of a concept. -/
def bumpFreq (m : List (String × Nat)) (k : String) : List (String × Nat) :=
  match m with
  | [] => [(k, 1)]
  | (k0, v) :: rest => if k0 = k then (k0, v + 1) :: rest else (k0, v) :: bumpFreq rest k

/-- A match reported by the multi-pattern matcher: the end index on the
original line, the matched surface form, and the canonical concept. -/
abbrev AMatch := Nat × Line × String

/-- The inserted index marker for a concept. -/
def indexMarker (concept : String) : Line :=
  '\\' :: "index".data ++ '{' :: concept.data ++ ['}']

/-- The mutable state of the per-line annotation loop: the current
(possibly already partially annotated) line, the cumulative length of the
markers inserted into it so far, the per-concept last-annotated-line map
and the statistics accumulator. -/
structure LoopState where
  line : Line
  total_annotation_length : Nat
  last_line : List (String × Int)
  stats : Stats
deriving DecidableEq, Repr

/-- The disjunction of validator rules 1 to 3, exactly as in the rejection
condition of the per-match loop body. -/
def validatorRejects (line : Line) (start_index end_index : Nat) (concept : String) : Bool :=
  is_invalid_concept concept
    || is_inside_command line start_index end_index '{' '}'
    || is_inside_command line start_index end_index '[' ']'
    || is_part_of_command line end_index

/-- One iteration of the per-match loop body of the source: correct the
end index by the cumulative annotation length, reject invalid matches
(counting them), apply the word-boundary checks via Python indexing (an
out-of-range access is a failure of the whole operation), apply
can_annotate, and on success splice the marker into the line immediately
after the corrected end index. -/
def processMatch (methods : Option (List String)) (line_nr : Int)
    (st : LoopState) (m : AMatch) : Option LoopState :=
  let end_index := m.1 + st.total_annotation_length
  let mword := m.2.1
  let concept := m.2.2
  let start_index := end_index + 1 - mword.length
  if validatorRejects st.line start_index end_index concept then
    some { st with stats := { st.stats with invalid_matches := st.stats.invalid_matches + 1 } }
  else
    match pyGet st.line ((end_index : Int) + 1) with
    | none => none
    | some c1 =>
      if isWordChar c1 then some st
      else
        match pyGet st.line ((end_index : Int) - (mword.length : Int)) with
        | none => none
        | some c2 =>
          if isWordChar c2 then some st
          else if can_annotate methods (lastVal st.last_line concept) line_nr concept then
            let ann := indexMarker concept
            some { line := st.line.take (end_index + 1) ++ ann ++ st.line.drop (end_index + 1)
                   total_annotation_length := st.total_annotation_length + ann.length
                   last_line := setLast st.last_line concept line_nr
                   stats := { st.stats with
                              indexed_matches := st.stats.indexed_matches + 1
                              ann_dist := bumpFreq st.stats.ann_dist concept } }
          else some st

/-- The per-line match loop: fold processMatch over the matches reported
for the original line, in order. -/
def runMatches (methods : Option (List String)) (line_nr : Int)
    (st : LoopState) : List AMatch → Option LoopState
  | [] => some st
  | m :: rest =>
    match processMatch methods line_nr st m with
    | none => none
    | some st2 => runMatches methods line_nr st2 rest

/-- The per-file mutable state between lines: the environment counters,
the per-concept last-annotated-line map and the statistics accumulator. -/
structure FileState where
  count_env : List (Line × Int)
  last_line : List (String × Int)
  stats : Stats
deriving DecidableEq, Repr

/-- Processing of one line of a file: observe begin and end delimiters,
write the line unchanged (counting it) when inside a tracked environment,
and otherwise run the match loop on it with a fresh cumulative annotation
length of zero. -/
def processLine (methods : Option (List String)) (allowed_env : List Line)
    (matcher : Line → List AMatch) (line_nr : Int) (fs : FileState) (line : Line) :
    Option (Line × FileState) :=
  let env1 := check_begin line fs.count_env allowed_env
  let env2 := check_end line env1 allowed_env
  if is_inside_env env2 then
    some (line, { fs with
                  count_env := env2
                  stats := { fs.stats with env_blocks_skipped := fs.stats.env_blocks_skipped + 1 } })
  else
    match runMatches methods line_nr
        { line := line
          total_annotation_length := 0
          last_line := fs.last_line
          stats := fs.stats } (matcher line) with
    | none => none
    | some st => some (st.line, { count_env := env2, last_line := st.last_line, stats := st.stats })

/-- Processing of the lines of one file, threading the file state and the
enumerate line number. -/
def processLines (methods : Option (List String)) (allowed_env : List Line)
    (matcher : Line → List AMatch) (fs : FileState) (line_nr : Int) :
    List Line → Option (List Line × FileState)
  | [] => some ([], fs)
  | l :: rest =>
    match processLine methods allowed_env matcher line_nr fs l with
    | none => none
    | some (l2, fs2) =>
      match processLines methods allowed_env matcher fs2 (line_nr + 1) rest with
      | none => none
      | some (out, fs3) => some (l2 :: out, fs3)

/-- Processing of one whole file: the environment counters and the
per-concept last-annotated-line map start fresh, the statistics
accumulator is carried in from the caller, and the line number starts at
zero. -/
def processFile (methods : Option (List String)) (allowed_env : List Line)
    (matcher : Line → List AMatch) (stats : Stats) (lines : List Line) :
    Option (List Line × Stats) :=
  match processLines methods allowed_env matcher
      { count_env := []
        last_line := []
        stats := stats } 0 lines with
  | none => none
  | some (out, fs) => some (out, fs.stats)

/-- The multi-file driver loop: for each file, increment the edited-files
counter, then process the file with the statistics accumulator threaded
through unchanged from the previous file. -/
def runFiles (methods : Option (List String)) (allowed_env : List Line)
    (matcher : Line → List AMatch) : List (List Line) → Stats → Option Stats
  | [], st => some st
  | f :: rest, st =>
    let st1 := { st with edited_files := st.edited_files + 1 }
    match processFile methods allowed_env matcher st1 f with
    | none => none
    | some (_, st2) => runFiles methods allowed_env matcher rest st2

/-- Modelled from the spec: the multi-pattern matcher is the external
ahocorasick library, absent from the repository sources.  Per the contract
in the spec, among the registered surface forms the longest pattern ending
at the given position and starting at or after the floor is reported. -/
def bestAt (pats : List (Line × String)) (line : Line) (floor e : Nat) :
    Option (Line × String) :=
  pats.foldl (fun acc p =>
    if p.1.length ≤ e + 1 && decide (floor ≤ e + 1 - p.1.length)
        && ((line.drop (e + 1 - p.1.length)).take p.1.length == p.1) then
      match acc with
      | none => some p
      | some q => if p.1.length > q.1.length then some p else some q
    else acc) none

/-- Modelled from the spec: iterate end positions left to right, reporting
at each end position the longest surface form ending there, without
overlap (the floor advances past each reported match). -/
def iterLongFrom (pats : List (Line × String)) (line : Line) :
    Nat → Nat → List AMatch
  | _, 0 => []
  | floor, fuel + 1 =>
    let e := line.length - (fuel + 1)
    match bestAt pats line floor e with
    | some (w, c) => (e, w, c) :: iterLongFrom pats line (e + 1) fuel
    | none => iterLongFrom pats line floor fuel

/-- Modelled from the spec: the longest-match iteration of the
multi-pattern matcher over a whole line. -/
def iter_long (pats : List (Line × String)) (line : Line) : List AMatch :=
  iterLongFrom pats line 0 line.length

/-- Insertion of a block of characters at a position of a line. -/
def insertAt (l : Line) (p : Nat) (a : Line) : Line :=
  l.take p ++ a ++ l.drop p

/-- Application of a list of insertion events, each given as a position in
the coordinates of the original line paired with the inserted text; the
cumulative length of the insertions already applied is threaded as an
offset, exactly as the annotation loop does. -/
def applyInserts (l : Line) (off : Nat) : List (Nat × Line) → Line
  | [] => l
  | (p, a) :: rest => applyInserts (insertAt l (p + off) a) (off + a.length) rest

/-- The spans reading of a list of insertion events sorted by position:
the text of the original line between consecutive insertion positions,
interleaved with the inserted blocks, starting from an absolute cursor. -/
def spansFrom (l : Line) (cur : Nat) : List (Nat × Line) → Line
  | [] => l.drop cur
  | (p, a) :: rest => (l.drop cur).take (p - cur) ++ a ++ spansFrom l p rest

/-- The full spans reading: inter-insertion text spans of the original
line concatenated with the inserted blocks in order. -/
def spans (l : Line) (evs : List (Nat × Line)) : Line := spansFrom l 0 evs

/-- A line carrying two begin-delimiters, for environments a and then b. -/
def twoBeginLine : Line := beginTok ++ "a".data ++ ['}'] ++ beginTok ++ "b".data ++ ['}'] ++ ['\n']

/-- A line carrying two end-delimiters, for environments a and then b. -/
def twoEndLine : Line := endTok ++ "a".data ++ ['}'] ++ endTok ++ "b".data ++ ['}'] ++ ['\n']

/-- A concrete line with two occurrences of the surface form ab. -/
def c1Line : Line := "x ab y ab z\n".data

/-- The matcher output for c1Line with the single pattern ab: ends at
offsets 3 and 8 of the original line. -/
def c1Matches : List AMatch := [(3, "ab".data, "ab"), (8, "ab".data, "ab")]

/-- The loop state at the start of processing c1Line. -/
def c1Start : LoopState := ⟨c1Line, 0, [], statsZero⟩

/-- The loop state after processing both matches of c1Line: both markers
inserted, cumulative length twenty, both insertions on record. -/
def c1Final : LoopState :=
  ⟨"x ab".data ++ indexMarker "ab" ++ " y ab".data ++ indexMarker "ab" ++ " z\n".data, 20,
   [("ab", 0)], { statsZero with indexed_matches := 2, ann_dist := [("ab", 2)] }⟩

/-- A concrete line whose match sits inside a mandatory command argument. -/
def c5Line : Line := '\\' :: "foo".data ++ '{' :: "ab".data ++ ['}', '\n']

/-- The concept table of the end-to-end stopword fixture. -/
def hgPats : List (Line × String) := [("hypergraph".data, "hypergraph")]

/-- The two-line end-to-end stopword fixture file. -/
def fixture : List Line :=
  ["The hypergraph model is useful.\n".data, "We extend the hypergraph further.\n".data]

/-!
Helper lemmas shared between the claim theorems.
-/

/-- Bumping one environment counter leaves every other counter unchanged. -/
theorem envVal_bump_ne : ∀ (env : List (Line × Int)) (g k : Line) (d : Int), k ≠ g →
    envVal (bump env g d) k = envVal env k := by
  intro env g k d h
  induction env with
  | nil =>
    simp only [bump, envVal]
    rw [if_neg (fun hh => h hh.symm)]
  | cons p rest ih =>
    obtain ⟨k0, v⟩ := p
    by_cases hk : k0 = g
    · subst hk
      simp only [bump, if_pos rfl, envVal]
      rw [if_neg (fun hh => h hh.symm), if_neg (fun hh => h hh.symm)]
    · simp only [bump, if_neg hk, envVal]
      by_cases hk2 : k0 = k
      · rw [if_pos hk2, if_pos hk2]
      · rw [if_neg hk2, if_neg hk2]
        exact ih

/-- Python indexing at a nonnegative position is a plain list lookup. -/
theorem pyGet_natCast (l : Line) (n : Nat) : pyGet l (n : Int) = l.get? n := by
  simp [pyGet]

/-- Python indexing one past a nonnegative position. -/
theorem pyGet_add_one (l : Line) (e : Nat) : pyGet l ((e : Int) + 1) = l.get? (e + 1) := by
  have h : ((e : Int) + 1) = (((e + 1 : Nat) : Int)) := by push_cast; ring
  rw [h, pyGet_natCast]

/-- Python indexing at minus one reads the final character of a nonempty
string. -/
theorem pyGet_neg_one (l : Line) (h : 1 ≤ l.length) :
    pyGet l (-1) = l.get? (l.length - 1) := by
  have h0 : ¬ ((0 : Int) ≤ -1) := by omega
  have h1 : (0 : Int) ≤ (l.length : Int) + (-1) := by omega
  have h2 : ((l.length : Int) + (-1)).toNat = l.length - 1 := by omega
  simp only [pyGet, if_neg h0, if_pos h1, h2]

/-- An in-range Python index always reads a character. -/
theorem pyGet_isSome (l : Line) (i : Int) (hlow : -(l.length : Int) ≤ i)
    (hhigh : i < l.length) : ∃ c, pyGet l i = some c := by
  by_cases h0 : (0 : Int) ≤ i
  · have hi : i.toNat < l.length := by omega
    exact ⟨l.get ⟨i.toNat, hi⟩, by simp only [pyGet, if_pos h0]; exact List.get?_eq_get hi⟩
  · have h1 : (0 : Int) ≤ (l.length : Int) + i := by omega
    have hi : ((l.length : Int) + i).toNat < l.length := by omega
    refine ⟨l.get ⟨((l.length : Int) + i).toNat, hi⟩, ?_⟩
    simp only [pyGet, if_neg h0, if_pos h1]
    exact List.get?_eq_get hi

/-- Inserting a block at an in-range position grows the length by the
length of the block. -/
theorem insertAt_length (l a : Line) (p : Nat) (hp : p ≤ l.length) :
    (insertAt l p a).length = l.length + a.length := by
  simp [insertAt, List.length_append, List.length_take, List.length_drop]
  omega

/-- Claim C2: a line for which, after observing the begin and end
delimiters of that line, some tracked environment counter is strictly
positive, is written out unchanged with no annotation inserted and the
environment-skipped statistic incremented; and the exclusion test holds
iff at least one counter value is strictly positive. -/
theorem c2_env_exclusion :
    (∀ count_env, is_inside_env count_env = true ↔ ∃ p ∈ count_env, 0 < p.2)
    ∧ (∀ (methods : Option (List String)) (allowed_env : List Line)
        (matcher : Line → List AMatch) (line_nr : Int) (fs : FileState) (line : Line),
        is_inside_env (check_end line (check_begin line fs.count_env allowed_env) allowed_env) = true →
        processLine methods allowed_env matcher line_nr fs line =
          some (line, { fs with
                        count_env := check_end line (check_begin line fs.count_env allowed_env) allowed_env
                        stats := { fs.stats with
                                   env_blocks_skipped := fs.stats.env_blocks_skipped + 1 } })) := by
  constructor
  · intro count_env
    simp [is_inside_env, List.any_eq_true]
  · intro methods allowed_env matcher line_nr fs line h
    simp only [processLine, h, if_pos]

/-- Witness for claim C2 at a concrete excluded state and line. -/
theorem c2_witness :
    processLine none [] (fun _ => []) 0
      ⟨[("figure".data, 1)], [], statsZero⟩ "hello\n".data =
      some ("hello\n".data,
        ⟨[("figure".data, 1)], [], { statsZero with env_blocks_skipped := 1 }⟩) := by
  have h := c2_env_exclusion.2 none [] (fun _ => []) 0
    ⟨[("figure".data, 1)], [], statsZero⟩ "hello\n".data (by decide)
  exact h

/-- Claim C3 counterexample: on a line with two begin-delimiters, first
for environment a and then for environment b, observe_begin leaves the
counter of a untouched and increments the counter of b, so the FIRST
delimiter of the line is not the recognized one; symmetrically for
observe_end. -/
theorem c3_counterexample :
    envVal (check_begin twoBeginLine [] []) "a".data = 0
    ∧ envVal (check_begin twoBeginLine [] []) "b".data = 1
    ∧ envVal (check_end twoEndLine [] []) "a".data = 0
    ∧ envVal (check_end twoEndLine [] []) "b".data = -1 := by decide

/-- Claim C3 amended: each call of observe_begin or observe_end changes at
most one counter, the one of the environment captured by the regex, which
is the LAST begin or end delimiter of the line followed by a closing
brace, with the capture running to the first closing brace after it; on
the two-delimiter lines the later environment wins. -/
theorem c3_last_delimiter :
    (∀ (line : Line) (env : List (Line × Int)) (allowed : List Line),
      check_begin line env allowed = env ∨
        ∃ g, lastCapture beginTok line = some g ∧ allowed.contains g = false ∧
          check_begin line env allowed = bump env g 1)
    ∧ (∀ (line : Line) (env : List (Line × Int)) (allowed : List Line),
      check_end line env allowed = env ∨
        ∃ g, lastCapture endTok line = some g ∧ allowed.contains g = false ∧
          check_end line env allowed = bump env g (-1))
    ∧ (∀ (env : List (Line × Int)) (g k : Line) (d : Int), k ≠ g →
        envVal (bump env g d) k = envVal env k)
    ∧ lastCapture beginTok twoBeginLine = some "b".data
    ∧ lastCapture endTok twoEndLine = some "b".data := by
  refine ⟨?_, ?_, envVal_bump_ne, by decide, by decide⟩
  · intro line env allowed
    unfold check_begin
    cases h : lastCapture beginTok line with
    | none => exact Or.inl rfl
    | some g =>
      by_cases ha : allowed.contains g
      · refine Or.inl ?_
        show (if allowed.contains g = true then env else bump env g 1) = env
        rw [if_pos ha]
      · refine Or.inr ⟨g, rfl, by simpa using ha, ?_⟩
        show (if allowed.contains g = true then env else bump env g 1) = bump env g 1
        rw [if_neg ha]
  · intro line env allowed
    unfold check_end
    cases h : lastCapture endTok line with
    | none => exact Or.inl rfl
    | some g =>
      by_cases ha : allowed.contains g
      · refine Or.inl ?_
        show (if allowed.contains g = true then env else bump env g (-1)) = env
        rw [if_pos ha]
      · refine Or.inr ⟨g, rfl, by simpa using ha, ?_⟩
        show (if allowed.contains g = true then env else bump env g (-1)) = bump env g (-1)
        rw [if_neg ha]

/-- Witness for the amended claim C3 at a concrete multi-delimiter line. -/
theorem c3_witness :
    envVal (bump [("x".data, (5 : Int))] "b".data 1) "x".data = 5 :=
  c3_last_delimiter.2.2.1 [("x".data, 5)] "b".data "x".data 1 (by decide)

/-- Claim C5: a match is flagged as inside a mandatory argument iff the
open-minus-close count over the prefix of the line before the match is
strictly positive and the open-minus-close count over the suffix after the
match is strictly negative; the check is applied independently for braces
and for brackets, and either one firing sends the match into the rejected
branch, which counts it invalid and inserts nothing. -/
theorem c5_inside_command :
    (∀ (line : Line) (s e : Nat) (oc cc : Char),
      is_inside_command line s e oc cc = true ↔
        (0 < ((line.take s).count oc : Int) - ((line.take s).count cc : Int)
          ∧ ((line.drop (e + 1)).count oc : Int) - ((line.drop (e + 1)).count cc : Int) < 0))
    ∧ (∀ (methods : Option (List String)) (line_nr : Int) (st : LoopState) (m : AMatch),
        (is_inside_command st.line (m.1 + st.total_annotation_length + 1 - m.2.1.length)
            (m.1 + st.total_annotation_length) '{' '}' = true
          ∨ is_inside_command st.line (m.1 + st.total_annotation_length + 1 - m.2.1.length)
            (m.1 + st.total_annotation_length) '[' ']' = true) →
        processMatch methods line_nr st m =
          some { st with stats :=
                  { st.stats with invalid_matches := st.stats.invalid_matches + 1 } }) := by
  constructor
  · intro line s e oc cc
    simp only [is_inside_command, Bool.and_eq_true, decide_eq_true_eq, gt_iff_lt]
  · intro methods line_nr st m h
    rcases h with h | h <;>
      simp [processMatch, validatorRejects, h]

/-- Witness for claim C5: a concrete match inside a brace argument is
counted invalid and no marker is inserted. -/
theorem c5_witness :
    processMatch none 0 ⟨c5Line, 0, [], statsZero⟩ (6, "ab".data, "ab") =
      some ⟨c5Line, 0, [], { statsZero with invalid_matches := 1 }⟩ :=
  c5_inside_command.2 none 0 ⟨c5Line, 0, [], statsZero⟩ (6, "ab".data, "ab")
    (Or.inl (by decide))

/-- Claim C7: with the stopword policy active a stopword concept is never
annotatable, the concept hypergraph is in the fixed stopword set, and the
two-line hypergraph fixture processed end to end with the stop method,
the default allow-list and the hypergraph concept table comes out
byte-identical to its input with all statistics untouched. -/
theorem c7_stopword_policy :
    THESIS_STOPWORDS.contains "hypergraph" = true
    ∧ (∀ (ms : List String) (last cur : Int) (c : String),
        ms.contains "stop" = true → THESIS_STOPWORDS.contains c = true →
        can_annotate (some ms) last cur c = false)
    ∧ processFile (some ["stop"]) ["sloppypar".data] (iter_long hgPats) statsZero fixture =
        some (fixture, statsZero) := by
  refine ⟨by decide, ?_, by decide⟩
  intro ms last cur c h1 h2
  simp only [can_annotate, h1, h2, Bool.not_true, Bool.or_false, Bool.and_eq_false_iff]
  right
  trivial

/-- Witness for claim C7: the stopword hypergraph is refused annotation. -/
theorem c7_witness : can_annotate (some ["stop"]) (-1) 0 "hypergraph" = false :=
  c7_stopword_policy.2.1 ["stop"] (-1) 0 "hypergraph" (by decide) (by decide)

/-- Case analysis of one iteration of the per-match loop: either the state
changes at most in the invalid-match counter (line, cumulative length,
last-annotated map and indexed counter untouched), or a marker was
inserted immediately after the corrected end index, at a position inside
the current line. -/
theorem processMatch_spec (methods : Option (List String)) (n : Int)
    (st st' : LoopState) (m : AMatch)
    (h : processMatch methods n st m = some st') :
    (st'.line = st.line ∧ st'.total_annotation_length = st.total_annotation_length
      ∧ st'.last_line = st.last_line
      ∧ st'.stats.indexed_matches = st.stats.indexed_matches)
    ∨ (st'.line = insertAt st.line (m.1 + st.total_annotation_length + 1) (indexMarker m.2.2)
       ∧ st'.total_annotation_length = st.total_annotation_length + (indexMarker m.2.2).length
       ∧ st'.stats.indexed_matches = st.stats.indexed_matches + 1
       ∧ m.1 + st.total_annotation_length + 1 ≤ st.line.length) := by
  simp only [processMatch] at h
  split at h
  · left
    injection h with h
    subst h
    simp
  · split at h
    · exact absurd h (by simp)
    · rename_i c1 hc1
      split at h
      · left
        injection h with h
        subst h
        simp
      · split at h
        · exact absurd h (by simp)
        · rename_i c2 hc2
          split at h
          · left
            injection h with h
            subst h
            simp
          · split at h
            · right
              injection h with h
              subst h
              rw [pyGet_add_one] at hc1
              have hb : m.1 + st.total_annotation_length + 1 < st.line.length :=
                (List.get?_eq_some.1 hc1).1
              refine ⟨rfl, rfl, rfl, Nat.le_of_lt hb⟩
            · left
              injection h with h
              subst h
              simp

/-- The indexed-matches counter never decreases along the match loop. -/
theorem runMatches_indexed_mono : ∀ (ms : List AMatch) (methods : Option (List String))
    (n : Int) (st st2 : LoopState), runMatches methods n st ms = some st2 →
    st.stats.indexed_matches ≤ st2.stats.indexed_matches := by
  intro ms
  induction ms with
  | nil =>
    intro methods n st st2 h
    simp only [runMatches] at h
    injection h with h
    subst h
    exact Nat.le_refl _
  | cons m rest ih =>
    intro methods n st st2 h
    simp only [runMatches] at h
    cases hp : processMatch methods n st m with
    | none => rw [hp] at h; exact absurd h (by simp)
    | some st1 =>
      rw [hp] at h
      have h2 := ih methods n st1 st2 h
      rcases processMatch_spec methods n st st1 m hp with ⟨_, _, _, he⟩ | ⟨_, _, he, _⟩ <;> omega

/-- Claim C6: with exactly the distance method active, a match passes the
throttle iff it is the first annotation of the concept in the file or the
current line number exceeds the last-annotated line number by more than
the 200-line window; at the concrete line pairs 10 and 150 only the first
occurrence passes and at 10 and 215 both pass; and when the match loop
indexes nothing, the last-annotated map comes out of the loop unchanged,
so the map is updated only on a successful annotation. -/
theorem c6_distance_policy :
    (∀ (last cur : Int) (c : String),
      can_annotate (some ["dist"]) last cur c = true ↔ (last = -1 ∨ cur > last + DISTANCE))
    ∧ can_annotate (some ["dist"]) (-1) 10 "x" = true
    ∧ can_annotate (some ["dist"]) 10 150 "x" = false
    ∧ can_annotate (some ["dist"]) 10 215 "x" = true
    ∧ (∀ (methods : Option (List String)) (n : Int) (st st2 : LoopState) (ms : List AMatch),
        runMatches methods n st ms = some st2 →
        st2.stats.indexed_matches = st.stats.indexed_matches →
        st2.last_line = st.last_line) := by
  refine ⟨?_, by decide, by decide, by decide, ?_⟩
  · intro last cur c
    have hd : (["dist"] : List String).contains "dist" = true := by decide
    have hs : (["dist"] : List String).contains "stop" = false := by decide
    simp [can_annotate, hd, hs]
  · intro methods n st st2 ms
    induction ms generalizing st with
    | nil =>
      intro h he
      simp only [runMatches] at h
      injection h with h
      rw [← h]
    | cons m rest ih =>
      intro h he
      simp only [runMatches] at h
      cases hp : processMatch methods n st m with
      | none => rw [hp] at h; exact absurd h (by simp)
      | some st1 =>
        rw [hp] at h
        rcases processMatch_spec methods n st st1 m hp with ⟨_, _, hl, hi⟩ | ⟨_, _, hi, _⟩
        · rw [ih st1 h (by omega), hl]
        · have hmono := runMatches_indexed_mono rest methods n st1 st2 h
          exfalso
          omega

/-- Witness for claim C6 at concrete inputs: the throttle passes a first
annotation, and an empty loop leaves the last-annotated map unchanged. -/
theorem c6_witness :
    can_annotate (some ["dist"]) (-1) 10 "x" = true
    ∧ (⟨[], 0, [], statsZero⟩ : LoopState).last_line = [] := by
  constructor
  · exact (c6_distance_policy.1 (-1) 10 "x").mpr (Or.inl rfl)
  · exact c6_distance_policy.2.2.2.2 none 0 ⟨[], 0, [], statsZero⟩ ⟨[], 0, [], statsZero⟩ [] rfl rfl

/-- Claim C8: a match on which the validator rules fire is counted in the
invalid-matches statistic and inserts nothing, while a validator-accepted
match rejected only by the word-boundary checks (a word character right
after the match end or right before the match start) leaves the whole
state, statistics included, untouched. -/
theorem c8_statistics_asymmetry :
    ∀ (methods : Option (List String)) (n : Int) (st : LoopState) (m : AMatch),
      (validatorRejects st.line (m.1 + st.total_annotation_length + 1 - m.2.1.length)
          (m.1 + st.total_annotation_length) m.2.2 = true →
        processMatch methods n st m =
          some { st with stats :=
                  { st.stats with invalid_matches := st.stats.invalid_matches + 1 } })
      ∧ (validatorRejects st.line (m.1 + st.total_annotation_length + 1 - m.2.1.length)
          (m.1 + st.total_annotation_length) m.2.2 = false →
        ∀ c1, pyGet st.line ((↑(m.1 + st.total_annotation_length) : Int) + 1) = some c1 →
          isWordChar c1 = true → processMatch methods n st m = some st)
      ∧ (validatorRejects st.line (m.1 + st.total_annotation_length + 1 - m.2.1.length)
          (m.1 + st.total_annotation_length) m.2.2 = false →
        ∀ c1 c2, pyGet st.line ((↑(m.1 + st.total_annotation_length) : Int) + 1) = some c1 →
          isWordChar c1 = false →
          pyGet st.line ((↑(m.1 + st.total_annotation_length) : Int) - (↑(m.2.1.length) : Int)) = some c2 →
          isWordChar c2 = true → processMatch methods n st m = some st) := by
  intro methods n st m
  refine ⟨?_, ?_, ?_⟩
  · intro h
    simp [processMatch, h]
  · intro h c1 hc1 hw
    push_cast at hc1
    simp [processMatch, h, hc1, hw]
  · intro h c1 c2 hc1 hw1 hc2 hw2
    push_cast at hc1 hc2
    simp [processMatch, h, hc1, hw1, hc2, hw2]

/-- Witness for claim C8 at concrete inputs: an invalid concept is counted
with no insertion, and boundary-rejected matches leave the state alone. -/
theorem c8_witness :
    processMatch none 0 ⟨"abcdef\n".data, 0, [], statsZero⟩ (3, "x".data, "a/b") =
      some ⟨"abcdef\n".data, 0, [], { statsZero with invalid_matches := 1 }⟩
    ∧ processMatch none 0 ⟨"abc\n".data, 0, [], statsZero⟩ (1, "ab".data, "ab") =
      some ⟨"abc\n".data, 0, [], statsZero⟩
    ∧ processMatch none 0 ⟨"xab \n".data, 0, [], statsZero⟩ (2, "ab".data, "ab") =
      some ⟨"xab \n".data, 0, [], statsZero⟩ := by
  refine ⟨?_, ?_, ?_⟩
  · exact (c8_statistics_asymmetry none 0 ⟨"abcdef\n".data, 0, [], statsZero⟩ (3, "x".data, "a/b")).1
      (by decide)
  · exact (c8_statistics_asymmetry none 0 ⟨"abc\n".data, 0, [], statsZero⟩ (1, "ab".data, "ab")).2.1
      (by decide) 'c' (by decide) (by decide)
  · exact (c8_statistics_asymmetry none 0 ⟨"xab \n".data, 0, [], statsZero⟩ (2, "ab".data, "ab")).2.2
      (by decide) ' ' 'x' (by decide) (by decide) (by decide) (by decide)

/-- Claim C4 counterexample: running the driver over two one-line files
leaves the edited-files statistic at two, so the statistics accumulator is
NOT reset at the start of each file and the integer statistics are run
totals, not per-file values. -/
theorem c4_counterexample :
    runFiles none [] (fun _ => []) [["x\n".data], ["x\n".data]] statsZero =
      some { statsZero with edited_files := 2 } := by decide

/-- Claim C4 amended: only the per-concept last-annotated-line map and the
environment counters start fresh for each file (definitionally in
processFile), while the statistics accumulator is threaded through the
whole run without reset, so processing a concatenation of file lists is
processing the first list and then the second from the accumulated
statistics. -/
theorem c4_stats_accumulate :
    ∀ (methods : Option (List String)) (allowed_env : List Line)
      (matcher : Line → List AMatch) (fs1 fs2 : List (List Line)) (st0 : Stats),
      runFiles methods allowed_env matcher (fs1 ++ fs2) st0 =
        (runFiles methods allowed_env matcher fs1 st0).bind
          (fun st1 => runFiles methods allowed_env matcher fs2 st1) := by
  intro methods allowed matcher fs1 fs2 st0
  induction fs1 generalizing st0 with
  | nil => simp [runFiles]
  | cons f rest ih =>
    cases hp : processFile methods allowed matcher
        { st0 with edited_files := st0.edited_files + 1 } f with
    | none => simp [runFiles, hp]
    | some p =>
      obtain ⟨out, st2⟩ := p
      simp [runFiles, hp, ih]

/-- The match loop realizes a list of insertion events: some sub-selection
of the matches, each contributing its marker at the position one past its
ORIGINAL end index, applied with the cumulative offset threading of
applyInserts; every realized event position, shifted by the incoming
cumulative length, lies inside the incoming line. -/
theorem runMatches_applyInserts : ∀ (ms : List AMatch) (methods : Option (List String))
    (n : Int) (st st2 : LoopState), runMatches methods n st ms = some st2 →
    ∃ evs : List (Nat × Line),
      evs.Sublist (ms.map (fun m => (m.1 + 1, indexMarker m.2.2)))
      ∧ st2.line = applyInserts st.line st.total_annotation_length evs
      ∧ st2.total_annotation_length =
          st.total_annotation_length + (evs.map (fun ev => ev.2.length)).sum
      ∧ (∀ ev ∈ evs, ev.1 + st.total_annotation_length ≤ st.line.length) := by
  intro ms
  induction ms with
  | nil =>
    intro methods n st st2 h
    simp only [runMatches] at h
    injection h with h
    subst h
    exact ⟨[], by simp, rfl, by simp, by simp⟩
  | cons m rest ih =>
    intro methods n st st2 h
    simp only [runMatches] at h
    cases hp : processMatch methods n st m with
    | none => rw [hp] at h; exact absurd h (by simp)
    | some st1 =>
      rw [hp] at h
      obtain ⟨evs, hsub, hline, htot, hbound⟩ := ih methods n st1 st2 h
      rcases processMatch_spec methods n st st1 m hp with ⟨hl, ht, _, _⟩ | ⟨hl, ht, _, hb⟩
      · refine ⟨evs, List.Sublist.cons _ hsub, ?_, ?_, ?_⟩
        · rw [hline, hl, ht]
        · rw [htot, ht]
        · intro ev hev
          have hx := hbound ev hev
          rw [ht, hl] at hx
          exact hx
      · refine ⟨(m.1 + 1, indexMarker m.2.2) :: evs, List.Sublist.cons₂ _ hsub, ?_, ?_, ?_⟩
        · rw [hline, hl, ht]
          simp only [applyInserts]
          have hq : m.1 + 1 + st.total_annotation_length =
              m.1 + st.total_annotation_length + 1 := by omega
          rw [hq]
        · rw [htot, ht]
          simp only [List.map_cons, List.sum_cons]
          omega
        · intro ev hev
          rcases List.mem_cons.1 hev with rfl | hev
          · simpa using Nat.le_of_succ_le_succ (by omega : m.1 + 1 + st.total_annotation_length + 1 ≤ st.line.length + 1)
          · have hx := hbound ev hev
            have hlen : st1.line.length = st.line.length + (indexMarker m.2.2).length := by
              rw [hl]
              exact insertAt_length _ _ _ (by omega)
            rw [ht] at hx
            omega

/-- Offset-threaded insertion application agrees with the sorted spans
reading: provided the event positions are nondecreasing, at or after the
cursor, and inside the original line, applying them to an already built
prefix X (of length cursor plus offset) followed by the rest of the
original line yields X followed by the spans interleaving. -/
theorem applyInserts_spansFrom : ∀ (evs : List (Nat × Line)) (l X : Line) (cur off : Nat),
    X.length = cur + off → cur ≤ l.length →
    List.Pairwise (fun a b => a.1 ≤ b.1) evs →
    (∀ ev ∈ evs, cur ≤ ev.1 ∧ ev.1 ≤ l.length) →
    applyInserts (X ++ l.drop cur) off evs = X ++ spansFrom l cur evs := by
  intro evs
  induction evs with
  | nil =>
    intro l X cur off hX hcur hpw hbd
    simp [applyInserts, spansFrom]
  | cons ev rest ih =>
    intro l X cur off hX hcur hpw hbd
    obtain ⟨p, a⟩ := ev
    obtain ⟨hcp, hpl⟩ := hbd (p, a) (List.mem_cons_self _ _)
    rw [List.pairwise_cons] at hpw
    obtain ⟨hhead, hpw2⟩ := hpw
    simp only [applyInserts, spansFrom]
    have hkey : insertAt (X ++ l.drop cur) (p + off) a =
        (X ++ (l.drop cur).take (p - cur) ++ a) ++ l.drop p := by
      unfold insertAt
      have h1 : p + off = X.length + (p - cur) := by omega
      rw [h1, List.take_append_eq_append_take,
          List.take_of_length_le (show X.length ≤ X.length + (p - cur) by omega),
          List.drop_append_eq_append_drop,
          List.drop_eq_nil_of_le (show X.length ≤ X.length + (p - cur) by omega)]
      have h2 : X.length + (p - cur) - X.length = p - cur := by omega
      rw [h2]
      have h3 : (l.drop cur).drop (p - cur) = l.drop p := by
        rw [List.drop_drop]
        congr 1
        omega
      rw [h3]
      simp [List.append_assoc]
    rw [hkey]
    have hX2 : (X ++ (l.drop cur).take (p - cur) ++ a).length = p + (off + a.length) := by
      have htl : ((l.drop cur).take (p - cur)).length = p - cur := by
        rw [List.length_take_of_le (by rw [List.length_drop]; omega)]
      simp only [List.length_append, htl]
      omega
    have hrec := ih l (X ++ (l.drop cur).take (p - cur) ++ a) p (off + a.length) hX2 hpl hpw2
      (fun ev hev => ⟨hhead ev hev, (hbd ev (List.mem_cons_of_mem _ hev)).2⟩)
    rw [hrec]
    simp [List.append_assoc]

/-- Claim C1: every end offset reported by the matcher is corrected by the
cumulative length of the markers already inserted in the same line before
being used for validation, the boundary check and the insertion
(definitionally so in processMatch), and therefore a completed run of the
match loop, starting from a fresh cumulative length of zero over matcher
output with strictly increasing end offsets, produces exactly the
original inter-match text spans concatenated with the inserted markers in
order, each marker sitting one position past its ORIGINAL end offset,
regardless of how many markers preceded a given match. -/
theorem c1_offset_reconstruction :
    ∀ (methods : Option (List String)) (n : Int) (st st2 : LoopState) (ms : List AMatch),
      st.total_annotation_length = 0 →
      List.Pairwise (fun a b : AMatch => a.1 < b.1) ms →
      runMatches methods n st ms = some st2 →
      ∃ evs : List (Nat × Line),
        evs.Sublist (ms.map (fun m => (m.1 + 1, indexMarker m.2.2)))
        ∧ st2.line = spans st.line evs := by
  intro methods n st st2 ms h0 hsort hrun
  obtain ⟨evs, hsub, hline, htot, hbound⟩ := runMatches_applyInserts ms methods n st st2 hrun
  refine ⟨evs, hsub, ?_⟩
  have hpw : List.Pairwise (fun a b : Nat × Line => a.1 ≤ b.1) evs := by
    refine List.Pairwise.sublist hsub ?_
    exact List.Pairwise.map _ (fun a b hab => Nat.add_le_add_right (Nat.le_of_lt hab) 1) hsort
  have hbd : ∀ ev ∈ evs, 0 ≤ ev.1 ∧ ev.1 ≤ st.line.length := by
    intro ev hev
    have hx := hbound ev hev
    omega
  have hmain := applyInserts_spansFrom evs st.line [] 0 0 (by simp) (Nat.zero_le _) hpw hbd
  simp only [List.nil_append, List.drop_zero] at hmain
  rw [hline, h0]
  exact hmain

/-- Witness for claim C1: the two-match line is rebuilt as its original
spans interleaved with the two markers. -/
theorem c1_witness :
    ∃ evs : List (Nat × Line),
      evs.Sublist (c1Matches.map (fun m => (m.1 + 1, indexMarker m.2.2)))
      ∧ c1Final.line = spans c1Line evs :=
  c1_offset_reconstruction none 0 c1Start c1Final c1Matches rfl (by decide) (by decide)

/-- The match loop terminates with a state (rather than failing on an
out-of-range Python index) whenever every match end, shifted by the
incoming cumulative length, lies at least two positions before the end of
the line, and no match is longer than its end position plus one. -/
theorem runMatches_total : ∀ (ms : List AMatch) (methods : Option (List String)) (n : Int)
    (st : LoopState),
    (∀ m ∈ ms, m.1 + st.total_annotation_length + 2 ≤ st.line.length) →
    (∀ m ∈ ms, m.2.1.length ≤ m.1 + 1) →
    ∃ st2, runMatches methods n st ms = some st2 := by
  intro ms
  induction ms with
  | nil =>
    intro methods n st hb hlens
    exact ⟨st, rfl⟩
  | cons m rest ih =>
    intro methods n st hb hlens
    have hbm := hb m (List.mem_cons_self _ _)
    have hlm := hlens m (List.mem_cons_self _ _)
    have hge1 : -(st.line.length : Int) ≤ (↑(m.1 + st.total_annotation_length) : Int) + 1 := by
      push_cast
      omega
    have hlt1 : ((↑(m.1 + st.total_annotation_length) : Int) + 1) < (st.line.length : Int) := by
      push_cast
      omega
    have hge2 : -(st.line.length : Int) ≤
        (↑(m.1 + st.total_annotation_length) : Int) - (↑(m.2.1.length) : Int) := by
      push_cast
      omega
    have hlt2 : ((↑(m.1 + st.total_annotation_length) : Int) - (↑(m.2.1.length) : Int)) <
        (st.line.length : Int) := by
      push_cast
      omega
    have hstep : (processMatch methods n st m).isSome = true := by
      simp only [processMatch]
      split
      · rfl
      · split
        · rename_i hnone
          obtain ⟨c1, hc1⟩ := pyGet_isSome st.line _ hge1 hlt1
          rw [hc1] at hnone
          exact absurd hnone (by simp)
        · rename_i c1 hc1
          split
          · rfl
          · split
            · rename_i hnone
              obtain ⟨c2, hc2⟩ := pyGet_isSome st.line _ hge2 hlt2
              rw [hc2] at hnone
              exact absurd hnone (by simp)
            · rename_i c2 hc2
              split
              · rfl
              · split
                · rfl
                · rfl
    obtain ⟨st1, hp⟩ := Option.isSome_iff_exists.1 hstep
    have htrans : ∀ m2 ∈ rest, m2.1 + st1.total_annotation_length + 2 ≤ st1.line.length := by
      intro m2 hm2
      have h2 := hb m2 (List.mem_cons_of_mem _ hm2)
      rcases processMatch_spec methods n st st1 m hp with ⟨hl, ht, _, _⟩ | ⟨hl, ht, _, hbnd⟩
      · rw [hl, ht]
        exact h2
      · have hlnew : st1.line.length = st.line.length + (indexMarker m.2.2).length := by
          rw [hl]
          exact insertAt_length _ _ _ (by omega)
        omega
    obtain ⟨st2, h2⟩ := ih methods n st1 htrans (fun m2 hm2 => hlens m2 (List.mem_cons_of_mem _ hm2))
    refine ⟨st2, ?_⟩
    simp only [runMatches]
    rw [hp]
    exact h2

/-- Claim C9: the per-line annotation operation is not total: it succeeds
whenever every corrected match end lies at least two positions before the
line end, as holds for lines terminated by a newline whose matches end
before it, but a validator-accepted match ending at the very last
character of a line (as on a final line with no trailing newline) makes
the word-boundary check read one position past the end of the line and
the operation fail rather than silently skip the match. -/
theorem c9_boundary_partiality :
    (∀ (methods : Option (List String)) (n : Int) (st : LoopState) (ms : List AMatch),
      (∀ m ∈ ms, m.1 + st.total_annotation_length + 2 ≤ st.line.length) →
      (∀ m ∈ ms, m.2.1.length ≤ m.1 + 1) →
      ∃ st2, runMatches methods n st ms = some st2)
    ∧ runMatches none 0 ⟨"ab".data, 0, [], statsZero⟩ [(1, "ab".data, "ab")] = none :=
  ⟨fun methods n st ms hb hlens => runMatches_total ms methods n st hb hlens, by decide⟩

/-- Witness for claim C9: with the trailing newline present the same match
is processed without failure. -/
theorem c9_witness :
    ∃ st2, runMatches none 0 ⟨"ab \n".data, 0, [], statsZero⟩ [(1, "ab".data, "ab")] = some st2 :=
  c9_boundary_partiality.1 none 0 ⟨"ab \n".data, 0, [], statsZero⟩ [(1, "ab".data, "ab")]
    (by decide) (by decide)

/-- Claim C10: for a validator-accepted match whose corrected span starts
at column zero, the before-the-match boundary probe reads Python index
minus one, which wraps around to the LAST character of the line, so the
match is annotated iff that final character is a non-word character (the
other acceptance conditions holding), rather than a start-of-line match
being unconditionally treated as sitting at a word boundary; concretely,
foo at the start of a line ending in a word character is not annotated,
while the same match on a newline-terminated line is. -/
theorem c10_negative_index_wrap :
    (∀ (methods : Option (List String)) (n : Int) (st : LoopState) (m : AMatch) (c1 c2 : Char),
      m.2.1.length = m.1 + st.total_annotation_length + 1 →
      validatorRejects st.line 0 (m.1 + st.total_annotation_length) m.2.2 = false →
      pyGet st.line ((↑(m.1 + st.total_annotation_length) : Int) + 1) = some c1 →
      isWordChar c1 = false →
      can_annotate methods (lastVal st.last_line m.2.2) n m.2.2 = true →
      1 ≤ st.line.length →
      st.line.get? (st.line.length - 1) = some c2 →
      ((∃ st2, processMatch methods n st m = some st2
          ∧ st2.stats.indexed_matches = st.stats.indexed_matches + 1) ↔ isWordChar c2 = false))
    ∧ runMatches none 0 ⟨"foo bar".data, 0, [], statsZero⟩ [(2, "foo".data, "foo")] =
        some ⟨"foo bar".data, 0, [], statsZero⟩
    ∧ runMatches none 0 ⟨"foo bar\n".data, 0, [], statsZero⟩ [(2, "foo".data, "foo")] =
        some ⟨"foo".data ++ indexMarker "foo" ++ " bar\n".data, 11, [("foo", 0)],
              { statsZero with indexed_matches := 1, ann_dist := [("foo", 1)] }⟩ := by
  refine ⟨?_, by decide, by decide⟩
  intro methods n st m c1 c2 hlen hrej hc1 hw1 hca hne hc2
  have hrej2 : validatorRejects st.line (m.1 + st.total_annotation_length + 1 - m.2.1.length)
      (m.1 + st.total_annotation_length) m.2.2 = false := by
    have hs : m.1 + st.total_annotation_length + 1 - m.2.1.length = 0 := by omega
    rw [hs]
    exact hrej
  have hidx : ((↑(m.1 + st.total_annotation_length) : Int) - (↑(m.2.1.length) : Int)) = -1 := by
    push_cast
    omega
  have hget : pyGet st.line
      ((↑(m.1 + st.total_annotation_length) : Int) - (↑(m.2.1.length) : Int)) = some c2 := by
    rw [hidx, pyGet_neg_one st.line hne]
    exact hc2
  push_cast at hc1 hget
  cases hw2 : isWordChar c2 with
  | true =>
    have hpm : processMatch methods n st m = some st := by
      simp [processMatch, hrej2, hc1, hw1, hget, hw2]
    rw [hpm]
    constructor
    · rintro ⟨st2, hp, hi⟩
      injection hp with hp
      rw [hp] at hi
      omega
    · intro hcon
      exact absurd hcon (by simp)
  | false =>
    constructor
    · intro _
      rfl
    · intro _
      refine ⟨{ line := st.line.take (m.1 + st.total_annotation_length + 1) ++
                  indexMarker m.2.2 ++ st.line.drop (m.1 + st.total_annotation_length + 1)
                total_annotation_length := st.total_annotation_length + (indexMarker m.2.2).length
                last_line := setLast st.last_line m.2.2 n
                stats := { st.stats with
                           indexed_matches := st.stats.indexed_matches + 1
                           ann_dist := bumpFreq st.stats.ann_dist m.2.2 } }, ?_, rfl⟩
      simp [processMatch, hrej2, hc1, hw1, hget, hw2, hca]

/-- Witness for claim C10: the start-of-line match on the newline
terminated line is annotated, the wrapped probe having read the newline. -/
theorem c10_witness :
    ∃ st2, processMatch none 0 ⟨"foo bar\n".data, 0, [], statsZero⟩ (2, "foo".data, "foo") = some st2
      ∧ st2.stats.indexed_matches = 0 + 1 :=
  (c10_negative_index_wrap.1 none 0 ⟨"foo bar\n".data, 0, [], statsZero⟩ (2, "foo".data, "foo")
    ' ' '\n' (by decide) (by decide) (by decide) (by decide) (by decide) (by decide)
    (by decide)).mpr (by decide)

end IndexConcepts
